import Mathlib

/-!
Verification development for the supermarket co-purchase analysis system
(`task2.py`, class `WeightedUndirectedGraph`).

The Python data structures are embedded shallowly:

* a Python `dict` (insertion ordered, in-place update of existing keys,
  new keys appended at the end) becomes an association list
  `List (String × β)` together with `lookup?` / `dictSet`;
* `collections.Counter` becomes an association list of `Nat` counts with
  `counterBump` / `counterAdd` (the `+=` idiom);
* `collections.defaultdict(dict)` subscription becomes `ddIndex`, which
  inserts an empty inner dict when the key is missing (mirroring
  `__missing__`);
* Python's `sorted` (a stable sort) becomes a stable insertion sort:
  `pysort` for ascending string sort, `sortDescBy` for
  `sorted(..., key=lambda x: x[1], reverse=True)` (which CPython keeps
  stable also under `reverse=True`), the same ordering that
  `Counter.most_common(n)` uses.

Each method of `WeightedUndirectedGraph` is translated from the source.
The `...S` variants additionally thread the adjacency dictionary through
every subscript operation, so that the absence of `defaultdict`
auto-insertion during queries is a provable statement rather than a
modelling assumption.
-/

namespace Task2

abbrev NeighborMap := List (String × Nat)
abbrev AdjList := List (String × NeighborMap)
abbrev FreqMap := List (String × Nat)

/-- Python `dict` lookup: first (and, for genuine dicts, only) binding wins. -/
def lookup? {β : Type} : List (String × β) → String → Option β
  | [], _ => none
  | (k, v) :: rest, key => if k = key then some v else lookup? rest key

/-- Python `dict` assignment `d[k] = v`: update in place when the key is
present, append at the end otherwise. -/
def dictSet {β : Type} : List (String × β) → String → β → List (String × β)
  | [], k, v => [(k, v)]
  | (k1, v1) :: rest, k, v =>
    if k1 = k then (k, v) :: rest else (k1, v1) :: dictSet rest k v

/-- Subscription of a `defaultdict(dict)`: a missing key is bound to an empty
dict (and that binding persists), a present key returns its value. -/
def ddIndex (adj : AdjList) (k : String) : NeighborMap × AdjList :=
  match lookup? adj k with
  | some m => (m, adj)
  | none => ([], adj ++ [(k, [])])

/-- `Counter` increment `c[k] += 1`. -/
def counterBump (m : FreqMap) (k : String) : FreqMap :=
  match lookup? m k with
  | some c => dictSet m k (c + 1)
  | none => m ++ [(k, 1)]

/-- `Counter` accumulation `c[k] += d`. -/
def counterAdd (m : FreqMap) (k : String) (d : Nat) : FreqMap :=
  match lookup? m k with
  | some c => dictSet m k (c + d)
  | none => m ++ [(k, d)]

/-- Lexicographic code-point comparison on character lists (auxiliary to
`strLt`). -/
def strLtAux : List Char → List Char → Bool
  | [], [] => false
  | [], _ :: _ => true
  | _ :: _, [] => false
  | a :: as, b :: bs =>
    if a.val.toNat < b.val.toNat then true
    else if b.val.toNat < a.val.toNat then false
    else strLtAux as bs

/-- Python's `<` on strings: lexicographic comparison of code points. -/
def strLt (a b : String) : Bool := strLtAux a.data b.data

/-- Stable ascending insertion (auxiliary to `pysort`). -/
def insertAsc (x : String) : List String → List String
  | [] => [x]
  | y :: ys => if strLt y x then y :: insertAsc x ys else x :: y :: ys

/-- Python `sorted(items)` on strings: stable ascending sort. -/
def pysort : List String → List String
  | [] => []
  | x :: xs => insertAsc x (pysort xs)

/-- Stable descending-by-key insertion (auxiliary to `sortDescBy`). -/
def insertDescBy {α : Type} (key : α → Nat) (x : α) : List α → List α
  | [] => [x]
  | y :: ys => if key x < key y then y :: insertDescBy key x ys else x :: y :: ys

/-- Python `sorted(l, key=f, reverse=True)`: stable sort by descending key.
`Counter.most_common` is specified to produce exactly this ordering. -/
def sortDescBy {α : Type} (key : α → Nat) : List α → List α
  | [] => []
  | x :: xs => insertDescBy key x (sortDescBy key xs)

/-- The hard-coded category table from `_init_product_categories`. -/
def product_categories : List (String × String) :=
  [("whole milk", "dairy"),
   ("yogurt", "dairy"),
   ("whipped/sour cream", "dairy"),
   ("butter", "dairy"),
   ("cheese", "dairy"),
   ("other vegetables", "vegetables"),
   ("root vegetables", "vegetables"),
   ("carrots", "vegetables"),
   ("tomatoes", "vegetables"),
   ("tropical fruit", "fruits"),
   ("pip fruit", "fruits"),
   ("citrus fruit", "fruits"),
   ("grapes", "fruits"),
   ("berries", "fruits"),
   ("rolls/buns", "bakery"),
   ("brown bread", "bakery"),
   ("white bread", "bakery"),
   ("pastry", "bakery"),
   ("soda", "drinks"),
   ("bottled water", "drinks"),
   ("canned beer", "drinks"),
   ("bottled beer", "drinks"),
   ("coffee", "drinks"),
   ("tea", "drinks"),
   ("sausage", "meat"),
   ("frankfurter", "meat"),
   ("pork", "meat"),
   ("beef", "meat"),
   ("chicken", "meat")]

/-- The graph state: `adjacency_list` and `product_frequency` of
`WeightedUndirectedGraph` (the category table is immutable and kept as the
global constant `product_categories`). -/
structure Graph where
  adjacency_list : AdjList
  product_frequency : FreqMap
deriving DecidableEq, Repr

/-- `WeightedUndirectedGraph.__init__`: empty adjacency list, empty counter. -/
def emptyGraph : Graph := { adjacency_list := [], product_frequency := [] }

/-- One co-purchase update `adjacency_list[a][b] += 1` (with the
`if b in adjacency_list[a]` branch of the source; note that subscripting
`adjacency_list[a]` itself inserts an empty dict when `a` is missing). -/
def adjBump (adj : AdjList) (a b : String) : AdjList :=
  let p := ddIndex adj a
  match lookup? p.1 b with
  | some c => dictSet p.2 a (dictSet p.1 b (c + 1))
  | none => dictSet p.2 a (dictSet p.1 b 1)

/-- Both directed updates the source performs for one unordered pair. -/
def symBump (adj : AdjList) (item1 item2 : String) : AdjList :=
  adjBump (adjBump adj item1 item2) item2 item1

/-- The inner `for j in range(i+1, ...)` loop of `add_transaction`. -/
def innerLoop (adj : AdjList) (item1 : String) : List String → AdjList
  | [] => adj
  | item2 :: rest => innerLoop (symBump adj item1 item2) item1 rest

/-- The outer `for i in range(...)` loop of `add_transaction`. -/
def outerLoop (adj : AdjList) : List String → AdjList
  | [] => adj
  | x :: xs => outerLoop (innerLoop adj x xs) xs

/-- `WeightedUndirectedGraph.add_transaction`. -/
def add_transaction (g : Graph) (items : List String) : Graph :=
  if items.length < 2 then
    { g with product_frequency := items.foldl counterBump g.product_frequency }
  else
    { adjacency_list := outerLoop g.adjacency_list (pysort items),
      product_frequency := items.foldl counterBump g.product_frequency }

/-- A graph built by a sequence of `add_transaction` calls on a fresh graph. -/
def buildGraph (ts : List (List String)) : Graph :=
  ts.foldl add_transaction emptyGraph

/-- `WeightedUndirectedGraph.get_top_co_purchase`. -/
def get_top_co_purchase (g : Graph) (target_product : String) (top_n : Nat) :
    List (String × Nat) :=
  match lookup? g.adjacency_list target_product with
  | none => []
  | some m => (sortDescBy (fun x => x.2) m).take top_n

/-- `tuple(sorted([item1, item2]))` for two strings. -/
def canonPair (a b : String) : String × String :=
  if strLt b a then (b, a) else (a, b)

/-- One step of the deduplicating pair collection in
`get_top3_product_pairs`: the accumulator carries `processed_pairs`
(first component) and `all_pairs` (second component). -/
def pairStep (item1 : String)
    (acc : List (String × String) × List ((String × String) × Nat))
    (nb : String × Nat) :
    List (String × String) × List ((String × String) × Nat) :=
  let pair := canonPair item1 nb.1
  if pair ∈ acc.1 then acc else (acc.1 ++ [pair], acc.2 ++ [(pair, nb.2)])

/-- Processing of one adjacency entry in `get_top3_product_pairs`. -/
def entryStep (acc : List (String × String) × List ((String × String) × Nat))
    (e : String × NeighborMap) :
    List (String × String) × List ((String × String) × Nat) :=
  e.2.foldl (pairStep e.1) acc

/-- The `all_pairs` list accumulated by `get_top3_product_pairs`. -/
def collectPairs (adj : AdjList) : List ((String × String) × Nat) :=
  (adj.foldl entryStep ([], [])).2

/-- `WeightedUndirectedGraph.get_top3_product_pairs`. -/
def get_top3_product_pairs (g : Graph) : List ((String × String) × Nat) :=
  (sortDescBy (fun x => x.2) (collectPairs g.adjacency_list)).take 3

/-- `WeightedUndirectedGraph.check_co_purchase_relation`. -/
def check_co_purchase_relation (g : Graph) (item1 item2 : String) : Nat :=
  match lookup? g.adjacency_list item1 with
  | none => 0
  | some m =>
    match lookup? m item2 with
    | none => 0
    | some c => c

/-- The list comprehension `[p for p, cat in product_categories.items()
if cat == category]`. -/
def categoryProducts (category : String) : List String :=
  (product_categories.filter (fun p => decide (p.2 = category))).map (fun p => p.1)

/-- The body of the `for product in category_products` loop of
`filter_by_category`. -/
def filterStep (adj : AdjList) (cps : List String) (acc : AdjList) (product : String) :
    AdjList :=
  match lookup? adj product with
  | none => acc
  | some m =>
    let fn := m.filter (fun nb => decide (nb.1 ∈ cps))
    if fn = [] then acc else acc ++ [(product, fn)]

/-- `WeightedUndirectedGraph.filter_by_category`. -/
def filter_by_category (g : Graph) (category : String) : AdjList :=
  let cps := categoryProducts category
  if cps = [] then []
  else cps.foldl (filterStep g.adjacency_list cps) []

/-- The body of the neighbor loop of `get_recommendation`
(`recommendation_scores[neighbor] += count`, skipping input products). -/
def recScore (input_products : List String) (acc2 : FreqMap) (nb : String × Nat) :
    FreqMap :=
  if nb.1 ∈ input_products then acc2 else counterAdd acc2 nb.1 nb.2

/-- The body of the `for product in input_products` loop of
`get_recommendation`. -/
def recStep (adj : AdjList) (input_products : List String) (acc : FreqMap)
    (product : String) : FreqMap :=
  match lookup? adj product with
  | none => acc
  | some m => m.foldl (recScore input_products) acc

/-- `WeightedUndirectedGraph.get_recommendation` (with
`Counter.most_common(top_n)` as stable descending sort plus truncation). -/
def get_recommendation (g : Graph) (input_products : List String) (top_n : Nat) :
    List (String × Nat) :=
  let scores := input_products.foldl (recStep g.adjacency_list input_products) []
  (sortDescBy (fun x => x.2) scores).take top_n

/-- Directed co-purchase lookup `adjacency_list[a][b]` as an `Option`. -/
def lookup2 (adj : AdjList) (a b : String) : Option Nat :=
  match lookup? adj a with
  | none => none
  | some m => lookup? m b

/-- Directed co-purchase count with the `0 = absent` reading. -/
def pairVal (adj : AdjList) (a b : String) : Nat :=
  (lookup2 adj a b).getD 0

/-- Purchase frequency with the `Counter` convention that a missing key
counts as `0`. -/
def freqVal (g : Graph) (x : String) : Nat :=
  (lookup? g.product_frequency x).getD 0

/-- Counter value with default `0` (auxiliary view of a `FreqMap`). -/
def cVal (m : FreqMap) (x : String) : Nat :=
  (lookup? m x).getD 0

/-- The symmetry invariant on adjacency storage. -/
def SymmAdj (adj : AdjList) : Prop :=
  ∀ a b, lookup2 adj a b = lookup2 adj b a

/-- Number of ordered index pairs `i < j` of the item list whose elements
form exactly the directed pair `(a, b)` or `(b, a)` — the number of times
the double loop of `add_transaction` increments `adjacency_list[a][b]`. -/
def pairsCount (a b : String) : List String → Nat
  | [] => 0
  | x :: xs =>
    xs.countP (fun y => decide ((a = x ∧ b = y) ∨ (b = x ∧ a = y))) + pairsCount a b xs

/-- `get_top_co_purchase` with every dict subscription threaded through
`ddIndex`, exposing any `defaultdict` auto-insertion a query could cause. -/
def get_top_co_purchaseS (g : Graph) (target_product : String) (top_n : Nat) :
    List (String × Nat) × Graph :=
  match lookup? g.adjacency_list target_product with
  | none => ([], g)
  | some _ =>
    let p := ddIndex g.adjacency_list target_product
    ((sortDescBy (fun x => x.2) p.1).take top_n, { g with adjacency_list := p.2 })

/-- `get_top3_product_pairs` state-threaded: its loops only iterate over
`items()` views and never subscript, so the state is returned as is. -/
def get_top3_product_pairsS (g : Graph) : List ((String × String) × Nat) × Graph :=
  (get_top3_product_pairs g, g)

/-- `check_co_purchase_relation` with every subscription of the
`defaultdict` threaded through `ddIndex` (the source subscripts
`adjacency_list[item1]` twice, each time guarded by a membership test). -/
def check_co_purchase_relationS (g : Graph) (item1 item2 : String) : Nat × Graph :=
  match lookup? g.adjacency_list item1 with
  | none => (0, g)
  | some _ =>
    let p1 := ddIndex g.adjacency_list item1
    match lookup? p1.1 item2 with
    | none => (0, { g with adjacency_list := p1.2 })
    | some _ =>
      let p2 := ddIndex p1.2 item1
      ((lookup? p2.1 item2).getD 0, { g with adjacency_list := p2.2 })

/-- The loop body of `filter_by_category` with the subscription of
`adjacency_list[product]` threaded through `ddIndex`. -/
def filterStepS (cps : List String) (acc : AdjList × AdjList) (product : String) :
    AdjList × AdjList :=
  match lookup? acc.2 product with
  | none => acc
  | some _ =>
    let p := ddIndex acc.2 product
    let fn := p.1.filter (fun nb => decide (nb.1 ∈ cps))
    if fn = [] then (acc.1, p.2) else (acc.1 ++ [(product, fn)], p.2)

/-- `filter_by_category` state-threaded. -/
def filter_by_categoryS (g : Graph) (category : String) : AdjList × Graph :=
  let cps := categoryProducts category
  if cps = [] then ([], g)
  else
    let r := cps.foldl (filterStepS cps) (([] : AdjList), g.adjacency_list)
    (r.1, { g with adjacency_list := r.2 })

/-- The loop body of `get_recommendation` with the subscription of
`adjacency_list[product]` threaded through `ddIndex`. -/
def recStepS (input_products : List String) (acc : FreqMap × AdjList)
    (product : String) : FreqMap × AdjList :=
  match lookup? acc.2 product with
  | none => acc
  | some _ =>
    let p := ddIndex acc.2 product
    (p.1.foldl (recScore input_products) acc.1, p.2)

/-- `get_recommendation` state-threaded. -/
def get_recommendationS (g : Graph) (input_products : List String) (top_n : Nat) :
    List (String × Nat) × Graph :=
  let r := input_products.foldl (recStepS input_products) (([] : FreqMap), g.adjacency_list)
  ((sortDescBy (fun x => x.2) r.1).take top_n, { g with adjacency_list := r.2 })

/-- Insertion respecting the ordering the spec mandates for
`TopCoPurchase`: descending count, ties by ascending lexicographic
neighbor identifier (auxiliary to `specSortNb`). -/
def specInsertNb (x : String × Nat) : List (String × Nat) → List (String × Nat)
  | [] => [x]
  | y :: ys =>
    if x.2 < y.2 ∨ (x.2 = y.2 ∧ strLt y.1 x.1 = true) then y :: specInsertNb x ys
    else x :: y :: ys

/-- Modelled from the spec: the neighbor ordering of §4.2, "descending
count, ties by ascending lexicographic order of the neighbor identifier". -/
def specSortNb : List (String × Nat) → List (String × Nat)
  | [] => []
  | x :: xs => specInsertNb x (specSortNb xs)

/-- Modelled from the spec: `TopCoPurchase` with the deterministic
lexicographic secondary key the spec mandates. -/
def get_top_co_purchase_specOrder (g : Graph) (target_product : String) (top_n : Nat) :
    List (String × Nat) :=
  match lookup? g.adjacency_list target_product with
  | none => []
  | some m => (specSortNb m).take top_n

/-- Lexicographic order on canonicalized pairs (first member, then second). -/
def pairLexLt (p q : String × String) : Bool :=
  strLt p.1 q.1 || (p.1 == q.1 && strLt p.2 q.2)

/-- Insertion respecting the ordering the spec mandates for `TopPairs`
(auxiliary to `specSortPairs`). -/
def specInsertPair (x : (String × String) × Nat) :
    List ((String × String) × Nat) → List ((String × String) × Nat)
  | [] => [x]
  | y :: ys =>
    if x.2 < y.2 ∨ (x.2 = y.2 ∧ pairLexLt y.1 x.1 = true) then y :: specInsertPair x ys
    else x :: y :: ys

/-- Modelled from the spec: the pair ordering of §4.3, "descending by
count, tie-break by ascending lexicographic order of the canonicalized
pair". -/
def specSortPairs : List ((String × String) × Nat) → List ((String × String) × Nat)
  | [] => []
  | x :: xs => specInsertPair x (specSortPairs xs)

/-- Modelled from the spec: `TopPairs(k)` with the deterministic
lexicographic secondary key and a genuine `k` parameter. -/
def topPairs_specOrder (g : Graph) (k : Nat) : List ((String × String) × Nat) :=
  (specSortPairs (collectPairs g.adjacency_list)).take k

theorem lookup?_dictSet_self {β : Type} (m : List (String × β)) (k : String) (v : β) :
    lookup? (dictSet m k v) k = some v := by
  induction m with
  | nil => simp [dictSet, lookup?]
  | cons h t ih =>
    obtain ⟨k1, v1⟩ := h
    by_cases hk : k1 = k
    · simp [dictSet, hk, lookup?]
    · simp [dictSet, hk, lookup?, ih]

theorem lookup?_dictSet_ne {β : Type} (m : List (String × β)) (k x : String) (v : β)
    (h : x ≠ k) : lookup? (dictSet m k v) x = lookup? m x := by
  induction m with
  | nil => simp [dictSet, lookup?, Ne.symm h]
  | cons hd t ih =>
    obtain ⟨k1, v1⟩ := hd
    by_cases hk : k1 = k
    · subst hk
      simp [dictSet, lookup?, Ne.symm h]
    · simp only [dictSet, if_neg hk, lookup?]
      by_cases hx : k1 = x
      · simp [hx]
      · simp [hx, ih]

theorem lookup?_append_of_none {β : Type} (l1 l2 : List (String × β)) (k : String)
    (h : lookup? l1 k = none) : lookup? (l1 ++ l2) k = lookup? l2 k := by
  induction l1 with
  | nil => simp
  | cons hd t ih =>
    obtain ⟨k1, v1⟩ := hd
    by_cases hk : k1 = k
    · simp [lookup?, hk] at h
    · simp only [lookup?, hk, if_neg hk, List.cons_append] at h ⊢
      exact ih h

theorem lookup?_append_of_some {β : Type} (l1 l2 : List (String × β)) (k : String) (v : β)
    (h : lookup? l1 k = some v) : lookup? (l1 ++ l2) k = some v := by
  induction l1 with
  | nil => simp [lookup?] at h
  | cons hd t ih =>
    obtain ⟨k1, v1⟩ := hd
    by_cases hk : k1 = k
    · simp only [lookup?, if_pos hk] at h
      simp [lookup?, hk, h]
    · simp only [lookup?, if_neg hk, List.cons_append] at h ⊢
      exact ih h

theorem lookup?_append_singleton_ne {β : Type} (l : List (String × β)) (k x : String) (v : β)
    (h : x ≠ k) : lookup? (l ++ [(k, v)]) x = lookup? l x := by
  cases hl : lookup? l x with
  | some w => exact lookup?_append_of_some l [(k, v)] x w hl
  | none =>
    rw [lookup?_append_of_none l [(k, v)] x hl]
    simp [lookup?, Ne.symm h, hl]

theorem mem_dictSet {β : Type} (m : List (String × β)) (k : String) (v : β) (e : String × β)
    (h : e ∈ dictSet m k v) : e ∈ m ∨ e = (k, v) := by
  induction m with
  | nil => simpa [dictSet] using h
  | cons hd t ih =>
    obtain ⟨k1, v1⟩ := hd
    by_cases hk : k1 = k
    · simp only [dictSet, if_pos hk, List.mem_cons] at h
      rcases h with h | h
      · right; exact h
      · left; exact List.mem_cons_of_mem _ h
    · simp only [dictSet, if_neg hk, List.mem_cons] at h
      rcases h with h | h
      · left; simp [h]
      · rcases ih h with h2 | h2
        · left; exact List.mem_cons_of_mem _ h2
        · right; exact h2

theorem lookup?_mem {β : Type} (m : List (String × β)) (k : String) (v : β)
    (h : lookup? m k = some v) : (k, v) ∈ m := by
  induction m with
  | nil => simp [lookup?] at h
  | cons hd t ih =>
    obtain ⟨k1, v1⟩ := hd
    by_cases hk : k1 = k
    · simp only [lookup?, if_pos hk] at h
      obtain rfl : v1 = v := Option.some.inj h
      subst hk
      exact List.mem_cons_self _ _
    · simp only [lookup?, if_neg hk] at h
      exact List.mem_cons_of_mem _ (ih h)

theorem nodupKeys_lookup? {β : Type} (m : List (String × β)) (k : String) (v : β)
    (hnd : (m.map Prod.fst).Nodup) (h : (k, v) ∈ m) : lookup? m k = some v := by
  induction m with
  | nil => simp at h
  | cons hd t ih =>
    obtain ⟨k1, v1⟩ := hd
    simp only [List.map_cons, List.nodup_cons] at hnd
    rcases List.mem_cons.mp h with h1 | h1
    · simp only [Prod.mk.injEq] at h1
      obtain ⟨hk, hv⟩ := h1
      subst hk
      subst hv
      simp [lookup?]
    · have hk1 : k1 ≠ k := by
        intro heq
        subst heq
        exact hnd.1 (List.mem_map.mpr ⟨(k1, v), h1, rfl⟩)
      simp only [lookup?, if_neg hk1]
      exact ih hnd.2 h1

theorem counterBump_val (m : FreqMap) (k x : String) :
    cVal (counterBump m k) x = cVal m x + if x = k then 1 else 0 := by
  unfold counterBump
  by_cases hx : x = k
  · subst hx
    cases hm : lookup? m x with
    | some c => simp [cVal, hm, lookup?_dictSet_self]
    | none =>
      rw [if_pos rfl]
      simp [cVal, hm, lookup?_append_of_none m [(x, 1)] x hm, lookup?]
  · cases hm : lookup? m k with
    | some c => simp [cVal, hx, lookup?_dictSet_ne m k x _ hx]
    | none => simp [cVal, hx, lookup?_append_singleton_ne m k x 1 hx]

theorem counterBump_lookup?_ne (m : FreqMap) (k x : String) (h : x ≠ k) :
    lookup? (counterBump m k) x = lookup? m x := by
  unfold counterBump
  cases hm : lookup? m k with
  | some c => exact lookup?_dictSet_ne m k x _ h
  | none => exact lookup?_append_singleton_ne m k x 1 h

theorem foldl_counterBump_val (l : List String) (m : FreqMap) (x : String) :
    cVal (l.foldl counterBump m) x = cVal m x + l.count x := by
  induction l generalizing m with
  | nil => simp
  | cons y ys ih =>
    simp only [List.foldl_cons, ih (counterBump m y), counterBump_val,
      List.count_cons]
    by_cases hxy : x = y
    · simp [hxy, beq_iff_eq]
      omega
    · have : ¬(y == x) := by simpa [beq_iff_eq] using fun hh => hxy hh.symm
      simp [hxy, this]

theorem foldl_counterBump_lookup?_ne (l : List String) (m : FreqMap) (x : String)
    (h : x ∉ l) : lookup? (l.foldl counterBump m) x = lookup? m x := by
  induction l generalizing m with
  | nil => rfl
  | cons y ys ih =>
    simp only [List.mem_cons, not_or] at h
    rw [List.foldl_cons, ih (counterBump m y) h.2, counterBump_lookup?_ne m y x h.1]

theorem nodup_count (l : List String) (a : String) (h : l.Nodup) :
    l.count a = if a ∈ l then 1 else 0 := by
  induction l with
  | nil => simp
  | cons y ys ih =>
    simp only [List.nodup_cons] at h
    rw [List.count_cons, ih h.2]
    by_cases hay : y = a
    · subst hay
      simp [h.1]
    · have hb : (y == a) = false := by simpa [beq_iff_eq] using hay
      simp only [hb, if_false, List.mem_cons]
      have : ¬a = y := Ne.symm hay
      simp [this]

theorem insertAsc_perm (x : String) (l : List String) :
    (insertAsc x l).Perm (x :: l) := by
  induction l with
  | nil => simp [insertAsc]
  | cons y ys ih =>
    by_cases h : strLt y x = true
    · simp only [insertAsc, if_pos h]
      exact (ih.cons y).trans (List.Perm.swap x y ys)
    · simp [insertAsc, h]

theorem pysort_perm (l : List String) : (pysort l).Perm l := by
  induction l with
  | nil => simp [pysort]
  | cons x xs ih => exact (insertAsc_perm x (pysort xs)).trans (ih.cons x)

theorem mem_pysort (x : String) (l : List String) : x ∈ pysort l ↔ x ∈ l :=
  (pysort_perm l).mem_iff

theorem pysort_nodup (l : List String) (h : l.Nodup) : (pysort l).Nodup :=
  ((pysort_perm l).nodup_iff).mpr h

theorem insertDescBy_perm {α : Type} (key : α → Nat) (x : α) (l : List α) :
    (insertDescBy key x l).Perm (x :: l) := by
  induction l with
  | nil => simp [insertDescBy]
  | cons y ys ih =>
    by_cases h : key x < key y
    · simp only [insertDescBy, if_pos h]
      exact (ih.cons y).trans (List.Perm.swap x y ys)
    · simp [insertDescBy, h]

theorem sortDescBy_perm {α : Type} (key : α → Nat) (l : List α) :
    (sortDescBy key l).Perm l := by
  induction l with
  | nil => simp [sortDescBy]
  | cons x xs ih => exact (insertDescBy_perm key x (sortDescBy key xs)).trans (ih.cons x)

theorem insertDescBy_pairwise {α : Type} (key : α → Nat) (x : α) (l : List α)
    (h : l.Pairwise (fun a b => key b ≤ key a)) :
    (insertDescBy key x l).Pairwise (fun a b => key b ≤ key a) := by
  induction l with
  | nil => simp [insertDescBy]
  | cons y ys ih =>
    rw [List.pairwise_cons] at h
    by_cases hlt : key x < key y
    · simp only [insertDescBy, if_pos hlt]
      rw [List.pairwise_cons]
      refine ⟨fun z hz => ?_, ih h.2⟩
      rcases List.mem_cons.mp ((insertDescBy_perm key x ys).mem_iff.mp hz) with rfl | hz
      · exact Nat.le_of_lt hlt
      · exact h.1 z hz
    · simp only [insertDescBy, if_neg hlt]
      rw [List.pairwise_cons]
      refine ⟨fun z hz => ?_, List.pairwise_cons.mpr h⟩
      rcases List.mem_cons.mp hz with hz | hz
      · subst hz
        exact Nat.le_of_not_lt hlt
      · exact Nat.le_trans (h.1 z hz) (Nat.le_of_not_lt hlt)

theorem sortDescBy_pairwise {α : Type} (key : α → Nat) (l : List α) :
    (sortDescBy key l).Pairwise (fun a b => key b ≤ key a) := by
  induction l with
  | nil => simp [sortDescBy]
  | cons x xs ih => exact insertDescBy_pairwise key x (sortDescBy key xs) ih

theorem filter_insertDescBy_ne {α : Type} (key : α → Nat) (x : α) (l : List α) (c : Nat)
    (h : ¬key x = c) :
    (insertDescBy key x l).filter (fun a => key a == c) =
      l.filter (fun a => key a == c) := by
  induction l with
  | nil => simp [insertDescBy, h]
  | cons y ys ih =>
    by_cases hlt : key x < key y
    · simp only [insertDescBy, if_pos hlt]
      rw [List.filter_cons, List.filter_cons, ih]
    · simp only [insertDescBy, if_neg hlt]
      rw [List.filter_cons]
      simp [h]

theorem filter_insertDescBy_eq {α : Type} (key : α → Nat) (x : α) (l : List α) (c : Nat)
    (h : key x = c) (hs : l.Pairwise (fun a b => key b ≤ key a)) :
    (insertDescBy key x l).filter (fun a => key a == c) =
      x :: l.filter (fun a => key a == c) := by
  induction l with
  | nil => simp [insertDescBy, h]
  | cons y ys ih =>
    rw [List.pairwise_cons] at hs
    by_cases hlt : key x < key y
    · simp only [insertDescBy, if_pos hlt]
      have hy : ¬key y = c := by omega
      rw [List.filter_cons, List.filter_cons]
      simp only [hy, beq_iff_eq, if_false]
      exact ih hs.2
    · simp only [insertDescBy, if_neg hlt]
      rw [List.filter_cons]
      simp [h]

theorem sortDescBy_filter {α : Type} (key : α → Nat) (l : List α) (c : Nat) :
    (sortDescBy key l).filter (fun a => key a == c) =
      l.filter (fun a => key a == c) := by
  induction l with
  | nil => simp [sortDescBy]
  | cons x xs ih =>
    by_cases hx : key x = c
    · rw [sortDescBy,
        filter_insertDescBy_eq key x (sortDescBy key xs) c hx (sortDescBy_pairwise key xs),
        ih, List.filter_cons]
      simp [hx]
    · rw [sortDescBy, filter_insertDescBy_ne key x (sortDescBy key xs) c hx, ih,
        List.filter_cons]
      simp [hx]

theorem adjBump_lookup?_ne (adj : AdjList) (x y a : String) (h : a ≠ x) :
    lookup? (adjBump adj x y) a = lookup? adj a := by
  cases hx : lookup? adj x with
  | some m =>
    simp only [adjBump, ddIndex, hx]
    cases hy : lookup? m y with
    | some c =>
      simp only [hy]
      exact lookup?_dictSet_ne adj x a _ h
    | none =>
      simp only [hy]
      exact lookup?_dictSet_ne adj x a _ h
  | none =>
    simp only [adjBump, ddIndex, hx, lookup?]
    rw [lookup?_dictSet_ne _ x a _ h, lookup?_append_singleton_ne adj x a _ h]

theorem adjBump_lookup2 (adj : AdjList) (x y a b : String) :
    lookup2 (adjBump adj x y) a b =
      if a = x ∧ b = y then some (pairVal adj x y + 1) else lookup2 adj a b := by
  by_cases hax : a = x
  · subst hax
    cases hx : lookup? adj a with
    | some m =>
      by_cases hby : b = y
      · subst hby
        cases hy : lookup? m b with
        | some c =>
          simp only [adjBump, ddIndex, hx, hy, lookup2, pairVal]
          simp [lookup?_dictSet_self, hx, hy]
        | none =>
          simp only [adjBump, ddIndex, hx, hy, lookup2, pairVal]
          simp [lookup?_dictSet_self, hx, hy]
      · cases hy : lookup? m y with
        | some c =>
          simp only [adjBump, ddIndex, hx, hy, lookup2, hby]
          simp [lookup?_dictSet_self, hx, lookup?_dictSet_ne m y b _ hby, hby]
        | none =>
          simp only [adjBump, ddIndex, hx, hy, lookup2, hby]
          simp [lookup?_dictSet_self, hx, lookup?_dictSet_ne m y b _ hby, hby]
    | none =>
      by_cases hby : b = y
      · subst hby
        simp only [adjBump, ddIndex, hx, lookup?, lookup2, pairVal]
        simp [lookup?_dictSet_self, hx, lookup?]
      · simp only [adjBump, ddIndex, hx, lookup?, lookup2, hby]
        simp [lookup?_dictSet_self, hx, lookup?, Ne.symm hby, hby]
  · have hkey : lookup? (adjBump adj x y) a = lookup? adj a :=
      adjBump_lookup?_ne adj x y a hax
    simp [lookup2, hkey, hax]

theorem symBump_lookup2 (adj : AdjList) (x y a b : String) (hxy : x ≠ y) :
    lookup2 (symBump adj x y) a b =
      if (a = x ∧ b = y) ∨ (a = y ∧ b = x) then some (pairVal adj a b + 1)
      else lookup2 adj a b := by
  unfold symBump
  rw [adjBump_lookup2, adjBump_lookup2]
  have hval : pairVal (adjBump adj x y) y x = pairVal adj y x := by
    unfold pairVal
    rw [adjBump_lookup2]
    have hne : ¬(y = x ∧ x = y) := fun hh => hxy hh.1.symm
    rw [if_neg hne]
  rw [hval]
  by_cases h1 : a = y ∧ b = x
  · rw [if_pos h1, if_pos (Or.inr h1), h1.1, h1.2]
  · rw [if_neg h1]
    by_cases h2 : a = x ∧ b = y
    · rw [if_pos h2, if_pos (Or.inl h2), h2.1, h2.2]
    · have hcond : ¬((a = x ∧ b = y) ∨ (a = y ∧ b = x)) := by tauto
      rw [if_neg h2, if_neg hcond]

theorem symBump_symm (adj : AdjList) (x y : String) (hxy : x ≠ y) (h : SymmAdj adj) :
    SymmAdj (symBump adj x y) := by
  intro a b
  rw [symBump_lookup2 adj x y a b hxy, symBump_lookup2 adj x y b a hxy]
  by_cases hc : (a = x ∧ b = y) ∨ (a = y ∧ b = x)
  · have hc2 : (b = x ∧ a = y) ∨ (b = y ∧ a = x) := by tauto
    rw [if_pos hc, if_pos hc2]
    have : pairVal adj a b = pairVal adj b a := by
      unfold pairVal
      rw [h a b]
    rw [this]
  · have hc2 : ¬((b = x ∧ a = y) ∨ (b = y ∧ a = x)) := by tauto
    rw [if_neg hc, if_neg hc2]
    exact h a b

theorem innerLoop_symm (adj : AdjList) (x : String) (xs : List String)
    (hx : x ∉ xs) (h : SymmAdj adj) : SymmAdj (innerLoop adj x xs) := by
  induction xs generalizing adj with
  | nil => exact h
  | cons y ys ih =>
    simp only [List.mem_cons, not_or] at hx
    rw [innerLoop]
    exact ih (symBump adj x y) hx.2 (symBump_symm adj x y hx.1 h)

theorem outerLoop_symm (adj : AdjList) (l : List String)
    (hnd : l.Nodup) (h : SymmAdj adj) : SymmAdj (outerLoop adj l) := by
  induction l generalizing adj with
  | nil => exact h
  | cons x xs ih =>
    rw [List.nodup_cons] at hnd
    rw [outerLoop]
    exact ih (innerLoop adj x xs) hnd.2 (innerLoop_symm adj x xs hnd.1 h)

theorem add_transaction_symm (g : Graph) (T : List String) (hnd : T.Nodup)
    (h : SymmAdj g.adjacency_list) : SymmAdj (add_transaction g T).adjacency_list := by
  unfold add_transaction
  by_cases hl : T.length < 2
  · simpa [hl] using h
  · simp only [hl, if_false]
    exact outerLoop_symm g.adjacency_list (pysort T) (pysort_nodup T hnd) h

theorem buildGraph_symm (ts : List (List String)) (h : ∀ t ∈ ts, t.Nodup) :
    SymmAdj (buildGraph ts).adjacency_list := by
  have main : ∀ (l : List (List String)) (g : Graph), (∀ t ∈ l, t.Nodup) →
      SymmAdj g.adjacency_list → SymmAdj (l.foldl add_transaction g).adjacency_list := by
    intro l
    induction l with
    | nil => intro g _ hg; exact hg
    | cons t rest ih =>
      intro g hl hg
      rw [List.foldl_cons]
      exact ih (add_transaction g t) (fun u hu => hl u (List.mem_cons_of_mem _ hu))
        (add_transaction_symm g t (hl t (List.mem_cons_self _ _)) hg)
  exact main ts emptyGraph h (fun a b => rfl)

theorem symBump_pairVal (adj : AdjList) (x y a b : String) (hxy : x ≠ y) :
    pairVal (symBump adj x y) a b =
      pairVal adj a b + if (a = x ∧ b = y) ∨ (a = y ∧ b = x) then 1 else 0 := by
  unfold pairVal
  rw [symBump_lookup2 adj x y a b hxy]
  by_cases h : (a = x ∧ b = y) ∨ (a = y ∧ b = x)
  · rw [if_pos h, if_pos h]
    simp [pairVal]
  · rw [if_neg h, if_neg h]
    omega

theorem symBump_lookup2_untouched (adj : AdjList) (x y a b : String)
    (h1 : ¬(a = x ∧ b = y)) (h2 : ¬(a = y ∧ b = x)) :
    lookup2 (symBump adj x y) a b = lookup2 adj a b := by
  unfold symBump
  rw [adjBump_lookup2, adjBump_lookup2, if_neg h2, if_neg h1]

theorem innerLoop_pairVal (x : String) (xs : List String) (adj : AdjList)
    (a b : String) (hx : x ∉ xs) :
    pairVal (innerLoop adj x xs) a b =
      pairVal adj a b +
        xs.countP (fun y => decide ((a = x ∧ b = y) ∨ (b = x ∧ a = y))) := by
  induction xs generalizing adj with
  | nil => simp [innerLoop]
  | cons y ys ih =>
    simp only [List.mem_cons, not_or] at hx
    rw [innerLoop, ih (symBump adj x y) hx.2, symBump_pairVal adj x y a b hx.1,
      List.countP_cons]
    by_cases hc : (a = x ∧ b = y) ∨ (a = y ∧ b = x)
    · have hc2 : decide ((a = x ∧ b = y) ∨ (b = x ∧ a = y)) = true := by
        rw [decide_eq_true_eq]
        tauto
      rw [if_pos hc, hc2]
      simp
      omega
    · have hc2 : decide ((a = x ∧ b = y) ∨ (b = x ∧ a = y)) = false := by
        rw [decide_eq_false_iff_not]
        tauto
      rw [if_neg hc, hc2]
      simp

theorem innerLoop_lookup2_untouched (x : String) (xs : List String) (adj : AdjList)
    (a b : String) (h : ∀ y ∈ xs, ¬(a = x ∧ b = y) ∧ ¬(a = y ∧ b = x)) :
    lookup2 (innerLoop adj x xs) a b = lookup2 adj a b := by
  induction xs generalizing adj with
  | nil => rfl
  | cons y ys ih =>
    rw [innerLoop, ih (symBump adj x y) (fun z hz => h z (List.mem_cons_of_mem _ hz))]
    have hy := h y (List.mem_cons_self _ _)
    exact symBump_lookup2_untouched adj x y a b hy.1 hy.2

theorem nodup_countP_eq (xs : List String) (b : String) (h : xs.Nodup) :
    xs.countP (fun y => decide (y = b)) = if b ∈ xs then 1 else 0 := by
  induction xs with
  | nil => simp
  | cons y ys ih =>
    rw [List.nodup_cons] at h
    rw [List.countP_cons, ih h.2]
    by_cases hyb : y = b
    · subst hyb
      simp [h.1]
    · simp [hyb, Ne.symm hyb]

theorem countP_pairPred (xs : List String) (a b x : String) (hx : x ∉ xs)
    (hnd : xs.Nodup) :
    xs.countP (fun y => decide ((a = x ∧ b = y) ∨ (b = x ∧ a = y))) =
      if (a = x ∧ b ∈ xs) ∨ (b = x ∧ a ∈ xs) then 1 else 0 := by
  by_cases hax : a = x
  · by_cases hbx : b = x
    · have hz : xs.countP (fun y => decide ((a = x ∧ b = y) ∨ (b = x ∧ a = y))) = 0 := by
        rw [List.countP_eq_zero]
        intro y hy
        simp only [decide_eq_true_eq, not_or, not_and]
        constructor
        · intro _ hby
          exact hx (hbx ▸ hby ▸ hy)
        · intro _ hay
          exact hx (hax ▸ hay ▸ hy)
      rw [hz]
      have hmem1 : b ∉ xs := fun hm => hx (hbx ▸ hm)
      have hmem2 : a ∉ xs := fun hm => hx (hax ▸ hm)
      simp [hmem1, hmem2]
    · have hcong : xs.countP (fun y => decide ((a = x ∧ b = y) ∨ (b = x ∧ a = y))) =
          xs.countP (fun y => decide (y = b)) := by
        apply List.countP_congr
        intro y _
        simp only [decide_eq_true_eq]
        constructor
        · rintro (⟨_, rfl⟩ | ⟨hbx2, _⟩)
          · rfl
          · exact absurd hbx2 hbx
        · intro hyb
          exact Or.inl ⟨hax, hyb.symm⟩
      rw [hcong, nodup_countP_eq xs b hnd]
      have : ((a = x ∧ b ∈ xs) ∨ (b = x ∧ a ∈ xs)) ↔ b ∈ xs := by
        constructor
        · rintro (⟨_, hm⟩ | ⟨hbx2, _⟩)
          · exact hm
          · exact absurd hbx2 hbx
        · intro hm
          exact Or.inl ⟨hax, hm⟩
      by_cases hb : b ∈ xs
      · rw [if_pos hb, if_pos (this.mpr hb)]
      · rw [if_neg hb, if_neg (fun hc => hb (this.mp hc))]
  · by_cases hbx : b = x
    · have hcong : xs.countP (fun y => decide ((a = x ∧ b = y) ∨ (b = x ∧ a = y))) =
          xs.countP (fun y => decide (y = a)) := by
        apply List.countP_congr
        intro y _
        simp only [decide_eq_true_eq]
        constructor
        · rintro (⟨hax2, _⟩ | ⟨_, rfl⟩)
          · exact absurd hax2 hax
          · rfl
        · intro hya
          exact Or.inr ⟨hbx, hya.symm⟩
      rw [hcong, nodup_countP_eq xs a hnd]
      have : ((a = x ∧ b ∈ xs) ∨ (b = x ∧ a ∈ xs)) ↔ a ∈ xs := by
        constructor
        · rintro (⟨hax2, _⟩ | ⟨_, hm⟩)
          · exact absurd hax2 hax
          · exact hm
        · intro hm
          exact Or.inr ⟨hbx, hm⟩
      by_cases ha : a ∈ xs
      · rw [if_pos ha, if_pos (this.mpr ha)]
      · rw [if_neg ha, if_neg (fun hc => ha (this.mp hc))]
    · have hz : xs.countP (fun y => decide ((a = x ∧ b = y) ∨ (b = x ∧ a = y))) = 0 := by
        rw [List.countP_eq_zero]
        intro y _
        simp only [decide_eq_true_eq, not_or, not_and]
        exact ⟨fun hax2 => absurd hax2 hax, fun hbx2 => absurd hbx2 hbx⟩
      rw [hz]
      have : ¬((a = x ∧ b ∈ xs) ∨ (b = x ∧ a ∈ xs)) := by
        rintro (⟨hax2, _⟩ | ⟨hbx2, _⟩)
        · exact hax hax2
        · exact hbx hbx2
      rw [if_neg this]

theorem pairsCount_nodup (l : List String) (a b : String) (hnd : l.Nodup) :
    pairsCount a b l = if a ∈ l ∧ b ∈ l ∧ a ≠ b then 1 else 0 := by
  induction l with
  | nil => simp [pairsCount]
  | cons x xs ih =>
    rw [List.nodup_cons] at hnd
    rw [pairsCount, countP_pairPred xs a b x hnd.1 hnd.2, ih hnd.2]
    by_cases hax : a = x <;> by_cases hbx : b = x <;>
      by_cases ha : a ∈ xs <;> by_cases hb : b ∈ xs <;> by_cases hab : a = b <;>
      simp_all [List.mem_cons]

theorem outerLoop_pairVal (l : List String) (adj : AdjList) (a b : String)
    (hnd : l.Nodup) :
    pairVal (outerLoop adj l) a b = pairVal adj a b + pairsCount a b l := by
  induction l generalizing adj with
  | nil => simp [outerLoop, pairsCount]
  | cons x xs ih =>
    rw [List.nodup_cons] at hnd
    rw [outerLoop, ih (innerLoop adj x xs) hnd.2,
      innerLoop_pairVal x xs adj a b hnd.1, pairsCount]
    omega

theorem outerLoop_lookup2_untouched (l : List String) (adj : AdjList) (a b : String)
    (hnd : l.Nodup) (h : ¬(a ∈ l ∧ b ∈ l ∧ a ≠ b)) :
    lookup2 (outerLoop adj l) a b = lookup2 adj a b := by
  induction l generalizing adj with
  | nil => rfl
  | cons x xs ih =>
    rw [List.nodup_cons] at hnd
    have hrec : ¬(a ∈ xs ∧ b ∈ xs ∧ a ≠ b) := by
      intro hc
      exact h ⟨List.mem_cons_of_mem _ hc.1, List.mem_cons_of_mem _ hc.2.1, hc.2.2⟩
    rw [outerLoop, ih (innerLoop adj x xs) hnd.2 hrec]
    apply innerLoop_lookup2_untouched
    intro y hy
    constructor
    · intro hc
      apply h
      refine ⟨List.mem_cons.mpr (Or.inl hc.1), List.mem_cons.mpr (Or.inr (hc.2 ▸ hy)), ?_⟩
      intro he
      exact hnd.1 (hc.1 ▸ he ▸ hc.2 ▸ hy)
    · intro hc
      apply h
      refine ⟨List.mem_cons.mpr (Or.inr (hc.1 ▸ hy)), List.mem_cons.mpr (Or.inl hc.2), ?_⟩
      intro he
      exact hnd.1 (hc.2 ▸ he ▸ hc.1 ▸ hy)

theorem outerLoop_lookup2_nodup (l : List String) (adj : AdjList) (a b : String)
    (hnd : l.Nodup) :
    lookup2 (outerLoop adj l) a b =
      if a ∈ l ∧ b ∈ l ∧ a ≠ b then some (pairVal adj a b + 1)
      else lookup2 adj a b := by
  by_cases hc : a ∈ l ∧ b ∈ l ∧ a ≠ b
  · rw [if_pos hc]
    have hval : pairVal (outerLoop adj l) a b = pairVal adj a b + 1 := by
      rw [outerLoop_pairVal l adj a b hnd, pairsCount_nodup l a b hnd, if_pos hc]
    cases hres : lookup2 (outerLoop adj l) a b with
    | none =>
      exfalso
      unfold pairVal at hval
      rw [hres] at hval
      simp at hval
    | some v =>
      unfold pairVal at hval
      rw [hres] at hval
      simp only [Option.getD_some] at hval
      rw [hval]
      rfl
  · rw [if_neg hc]
    exact outerLoop_lookup2_untouched l adj a b hnd hc

theorem symBump_lookup?_ne (adj : AdjList) (x y a : String)
    (hax : a ≠ x) (hay : a ≠ y) :
    lookup? (symBump adj x y) a = lookup? adj a := by
  unfold symBump
  rw [adjBump_lookup?_ne _ y x a hay, adjBump_lookup?_ne _ x y a hax]

theorem innerLoop_lookup?_ne (x : String) (xs : List String) (adj : AdjList)
    (a : String) (hax : a ≠ x) (hmem : a ∉ xs) :
    lookup? (innerLoop adj x xs) a = lookup? adj a := by
  induction xs generalizing adj with
  | nil => rfl
  | cons y ys ih =>
    simp only [List.mem_cons, not_or] at hmem
    rw [innerLoop, ih (symBump adj x y) hmem.2, symBump_lookup?_ne adj x y a hax hmem.1]

theorem outerLoop_lookup?_ne (l : List String) (adj : AdjList) (a : String)
    (hmem : a ∉ l) : lookup? (outerLoop adj l) a = lookup? adj a := by
  induction l generalizing adj with
  | nil => rfl
  | cons x xs ih =>
    simp only [List.mem_cons, not_or] at hmem
    rw [outerLoop, ih (innerLoop adj x xs) hmem.2,
      innerLoop_lookup?_ne x xs adj a hmem.1 hmem.2]

theorem innerLoop_lookup2_b_not_mem (x : String) (xs : List String) (adj : AdjList)
    (a b : String) (hbx : b ≠ x) (hb : b ∉ xs) :
    lookup2 (innerLoop adj x xs) a b = lookup2 adj a b := by
  apply innerLoop_lookup2_untouched
  intro y hy
  exact ⟨fun hc => hb (hc.2 ▸ hy), fun hc => hbx hc.2⟩

theorem outerLoop_lookup2_b_not_mem (l : List String) (adj : AdjList)
    (a b : String) (hb : b ∉ l) :
    lookup2 (outerLoop adj l) a b = lookup2 adj a b := by
  induction l generalizing adj with
  | nil => rfl
  | cons x xs ih =>
    simp only [List.mem_cons, not_or] at hb
    rw [outerLoop, ih (innerLoop adj x xs) hb.2,
      innerLoop_lookup2_b_not_mem x xs adj a b hb.1 hb.2]

theorem add_transaction_freqVal (g : Graph) (T : List String) (x : String) :
    freqVal (add_transaction g T) x = freqVal g x + T.count x := by
  have h1 : cVal (T.foldl counterBump g.product_frequency) x =
      cVal g.product_frequency x + T.count x :=
    foldl_counterBump_val T g.product_frequency x
  unfold add_transaction freqVal
  by_cases hl : T.length < 2
  · rw [if_pos hl]
    exact h1
  · rw [if_neg hl]
    exact h1

theorem add_transaction_freq_lookup?_ne (g : Graph) (T : List String) (x : String)
    (hx : x ∉ T) :
    lookup? (add_transaction g T).product_frequency x = lookup? g.product_frequency x := by
  unfold add_transaction
  by_cases hl : T.length < 2
  · rw [if_pos hl]
    exact foldl_counterBump_lookup?_ne T g.product_frequency x hx
  · rw [if_neg hl]
    exact foldl_counterBump_lookup?_ne T g.product_frequency x hx

theorem add_transaction_lookup2 (g : Graph) (T : List String) (a b : String)
    (hnd : T.Nodup) :
    lookup2 (add_transaction g T).adjacency_list a b =
      if 2 ≤ T.length ∧ a ∈ T ∧ b ∈ T ∧ a ≠ b then
        some (pairVal g.adjacency_list a b + 1)
      else lookup2 g.adjacency_list a b := by
  unfold add_transaction
  by_cases hl : T.length < 2
  · rw [if_pos hl]
    have hcond : ¬(2 ≤ T.length ∧ a ∈ T ∧ b ∈ T ∧ a ≠ b) := fun hc => by omega
    rw [if_neg hcond]
  · rw [if_neg hl]
    have h2 : 2 ≤ T.length := by omega
    dsimp only
    rw [outerLoop_lookup2_nodup (pysort T) g.adjacency_list a b (pysort_nodup T hnd)]
    by_cases hc : a ∈ T ∧ b ∈ T ∧ a ≠ b
    · rw [if_pos ⟨(mem_pysort a T).mpr hc.1, (mem_pysort b T).mpr hc.2.1, hc.2.2⟩,
        if_pos ⟨h2, hc⟩]
    · rw [if_neg (fun hcc =>
        hc ⟨(mem_pysort a T).mp hcc.1, (mem_pysort b T).mp hcc.2.1, hcc.2.2⟩),
        if_neg (fun hcc => hc hcc.2)]

theorem add_transaction_pairVal (g : Graph) (T : List String) (a b : String)
    (hnd : T.Nodup) :
    pairVal (add_transaction g T).adjacency_list a b =
      pairVal g.adjacency_list a b +
        (if 2 ≤ T.length ∧ a ∈ T ∧ b ∈ T ∧ a ≠ b then 1 else 0) := by
  unfold pairVal
  rw [add_transaction_lookup2 g T a b hnd]
  by_cases hc : 2 ≤ T.length ∧ a ∈ T ∧ b ∈ T ∧ a ≠ b
  · rw [if_pos hc, if_pos hc]
    simp [pairVal]
  · rw [if_neg hc, if_neg hc]
    omega

theorem add_transaction_lookup?_adj_ne (g : Graph) (T : List String) (a : String)
    (ha : a ∉ T) :
    lookup? (add_transaction g T).adjacency_list a = lookup? g.adjacency_list a := by
  unfold add_transaction
  by_cases hl : T.length < 2
  · rw [if_pos hl]
  · rw [if_neg hl]
    exact outerLoop_lookup?_ne (pysort T) g.adjacency_list a
      (fun hm => ha ((mem_pysort a T).mp hm))

theorem add_transaction_lookup2_b_not_mem (g : Graph) (T : List String)
    (a b : String) (hb : b ∉ T) :
    lookup2 (add_transaction g T).adjacency_list a b =
      lookup2 g.adjacency_list a b := by
  unfold add_transaction
  by_cases hl : T.length < 2
  · rw [if_pos hl]
  · rw [if_neg hl]
    exact outerLoop_lookup2_b_not_mem (pysort T) g.adjacency_list a b
      (fun hm => hb ((mem_pysort b T).mp hm))

theorem check_eq_pairVal (g : Graph) (a b : String) :
    check_co_purchase_relation g a b = pairVal g.adjacency_list a b := by
  cases h1 : lookup? g.adjacency_list a with
  | none => simp [check_co_purchase_relation, pairVal, lookup2, h1]
  | some m =>
    cases h2 : lookup? m b with
    | none => simp [check_co_purchase_relation, pairVal, lookup2, h1, h2]
    | some c => simp [check_co_purchase_relation, pairVal, lookup2, h1, h2]

/-- C1: after any sequence of `add_transaction` calls on deduplicated
transactions, the co-purchase storage is symmetric: `coPurchase[A][B]` is
defined iff `coPurchase[B][A]` is, the two counts are equal (the `Option`
equality states both at once), and `check_co_purchase_relation` is
symmetric in its arguments. -/
theorem C1_symmetry_invariant (ts : List (List String)) (h : ∀ t ∈ ts, t.Nodup)
    (a b : String) :
    lookup2 (buildGraph ts).adjacency_list a b =
      lookup2 (buildGraph ts).adjacency_list b a ∧
    check_co_purchase_relation (buildGraph ts) a b =
      check_co_purchase_relation (buildGraph ts) b a := by
  have hs := buildGraph_symm ts h
  refine ⟨hs a b, ?_⟩
  rw [check_eq_pairVal, check_eq_pairVal]
  unfold pairVal
  rw [hs a b]

theorem C1_symmetry_invariant_witness :
    lookup2 (buildGraph [["a", "b"], ["b", "c"]]).adjacency_list "a" "b" =
      lookup2 (buildGraph [["a", "b"], ["b", "c"]]).adjacency_list "b" "a" ∧
    check_co_purchase_relation (buildGraph [["a", "b"], ["b", "c"]]) "a" "b" =
      check_co_purchase_relation (buildGraph [["a", "b"], ["b", "c"]]) "b" "a" :=
  C1_symmetry_invariant [["a", "b"], ["b", "c"]] (by decide) "a" "b"

/-- C4: ingesting the same deduplicated transaction twice doubles every
frequency increment and every pairwise co-purchase increment relative to
ingesting it once, and counts not touched by the transaction are unchanged
(even at the level of which keys are present). -/
theorem C4_additivity (g : Graph) (T : List String) (hnd : T.Nodup)
    (x a b : String) :
    freqVal (add_transaction (add_transaction g T) T) x + freqVal g x =
      2 * freqVal (add_transaction g T) x ∧
    pairVal (add_transaction (add_transaction g T) T).adjacency_list a b +
        pairVal g.adjacency_list a b =
      2 * pairVal (add_transaction g T).adjacency_list a b ∧
    (x ∉ T →
      lookup? (add_transaction (add_transaction g T) T).product_frequency x =
        lookup? g.product_frequency x) ∧
    (¬(2 ≤ T.length ∧ a ∈ T ∧ b ∈ T ∧ a ≠ b) →
      lookup2 (add_transaction (add_transaction g T) T).adjacency_list a b =
        lookup2 g.adjacency_list a b) := by
  refine ⟨?_, ?_, ?_, ?_⟩
  · rw [add_transaction_freqVal (add_transaction g T) T x, add_transaction_freqVal g T x]
    omega
  · rw [add_transaction_pairVal (add_transaction g T) T a b hnd,
      add_transaction_pairVal g T a b hnd]
    omega
  · intro hx
    rw [add_transaction_freq_lookup?_ne (add_transaction g T) T x hx,
      add_transaction_freq_lookup?_ne g T x hx]
  · intro hc
    rw [add_transaction_lookup2 (add_transaction g T) T a b hnd, if_neg hc,
      add_transaction_lookup2 g T a b hnd, if_neg hc]

theorem C4_additivity_witness :
    freqVal (add_transaction (add_transaction emptyGraph ["a", "b"]) ["a", "b"]) "a" +
        freqVal emptyGraph "a" =
      2 * freqVal (add_transaction emptyGraph ["a", "b"]) "a" ∧
    pairVal (add_transaction (add_transaction emptyGraph ["a", "b"])
          ["a", "b"]).adjacency_list "a" "b" +
        pairVal emptyGraph.adjacency_list "a" "b" =
      2 * pairVal (add_transaction emptyGraph ["a", "b"]).adjacency_list "a" "b" ∧
    ("a" ∉ (["a", "b"] : List String) →
      lookup? (add_transaction (add_transaction emptyGraph ["a", "b"])
          ["a", "b"]).product_frequency "a" =
        lookup? emptyGraph.product_frequency "a") ∧
    (¬(2 ≤ (["a", "b"] : List String).length ∧ "a" ∈ (["a", "b"] : List String) ∧
        "b" ∈ (["a", "b"] : List String) ∧ "a" ≠ "b") →
      lookup2 (add_transaction (add_transaction emptyGraph ["a", "b"])
          ["a", "b"]).adjacency_list "a" "b" =
        lookup2 emptyGraph.adjacency_list "a" "b") :=
  C4_additivity emptyGraph ["a", "b"] (by decide) "a" "a" "b"

/-- C8: on a graph built from transactions that contain each item at most
once, every recorded pairwise count is bounded by the frequencies of both
of its endpoints. -/
theorem C8_count_bound (ts : List (List String)) (h : ∀ t ∈ ts, t.Nodup)
    (a b : String) :
    pairVal (buildGraph ts).adjacency_list a b ≤ freqVal (buildGraph ts) a ∧
    pairVal (buildGraph ts).adjacency_list a b ≤ freqVal (buildGraph ts) b := by
  have main : ∀ (l : List (List String)) (g : Graph), (∀ t ∈ l, t.Nodup) →
      (∀ u v, pairVal g.adjacency_list u v ≤ freqVal g u ∧
        pairVal g.adjacency_list u v ≤ freqVal g v) →
      ∀ u v, pairVal (l.foldl add_transaction g).adjacency_list u v ≤
          freqVal (l.foldl add_transaction g) u ∧
        pairVal (l.foldl add_transaction g).adjacency_list u v ≤
          freqVal (l.foldl add_transaction g) v := by
    intro l
    induction l with
    | nil => intro g _ hg; exact hg
    | cons T rest ih =>
      intro g hl hg
      rw [List.foldl_cons]
      refine ih (add_transaction g T)
        (fun u hu => hl u (List.mem_cons_of_mem _ hu)) ?_
      intro u v
      have hndT : T.Nodup := hl T (List.mem_cons_self _ _)
      have hp := add_transaction_pairVal g T u v hndT
      have hfu := add_transaction_freqVal g T u
      have hfv := add_transaction_freqVal g T v
      rw [nodup_count T u hndT] at hfu
      rw [nodup_count T v hndT] at hfv
      have hgu := (hg u v).1
      have hgv := (hg u v).2
      by_cases hc : 2 ≤ T.length ∧ u ∈ T ∧ v ∈ T ∧ u ≠ v
      · rw [if_pos hc] at hp
        rw [if_pos hc.2.1] at hfu
        rw [if_pos hc.2.2.1] at hfv
        omega
      · rw [if_neg hc] at hp
        constructor
        · by_cases hu : u ∈ T
          · rw [if_pos hu] at hfu
            omega
          · rw [if_neg hu] at hfu
            omega
        · by_cases hv : v ∈ T
          · rw [if_pos hv] at hfv
            omega
          · rw [if_neg hv] at hfv
            omega
  exact main ts emptyGraph h (fun u v => by constructor <;> rfl) a b

theorem C8_count_bound_witness :
    pairVal (buildGraph [["a", "b"], ["a", "c"]]).adjacency_list "a" "b" ≤
      freqVal (buildGraph [["a", "b"], ["a", "c"]]) "a" ∧
    pairVal (buildGraph [["a", "b"], ["a", "c"]]).adjacency_list "a" "b" ≤
      freqVal (buildGraph [["a", "b"], ["a", "c"]]) "b" :=
  C8_count_bound [["a", "b"], ["a", "c"]] (by decide) "a" "b"

theorem check_of_lookup2_none (g : Graph) (a b : String)
    (h : lookup2 g.adjacency_list a b = none) :
    check_co_purchase_relation g a b = 0 := by
  rw [check_eq_pairVal]
  unfold pairVal
  rw [h]
  rfl

theorem buildGraph_not_ingested (ts : List (List String)) (target : String)
    (h : ∀ t ∈ ts, target ∉ t) :
    lookup? (buildGraph ts).adjacency_list target = none ∧
    ∀ b, lookup2 (buildGraph ts).adjacency_list b target = none := by
  have main : ∀ (l : List (List String)) (g : Graph), (∀ t ∈ l, target ∉ t) →
      lookup? g.adjacency_list target = none →
      (∀ b, lookup2 g.adjacency_list b target = none) →
      lookup? (l.foldl add_transaction g).adjacency_list target = none ∧
      ∀ b, lookup2 (l.foldl add_transaction g).adjacency_list b target = none := by
    intro l
    induction l with
    | nil => intro g _ h1 h2; exact ⟨h1, h2⟩
    | cons T rest ih =>
      intro g hl h1 h2
      rw [List.foldl_cons]
      have hT : target ∉ T := hl T (List.mem_cons_self _ _)
      refine ih (add_transaction g T) (fun u hu => hl u (List.mem_cons_of_mem _ hu)) ?_ ?_
      · rw [add_transaction_lookup?_adj_ne g T target hT]
        exact h1
      · intro b
        rw [add_transaction_lookup2_b_not_mem g T b target hT]
        exact h2 b
  exact main ts emptyGraph h rfl (fun _ => rfl)

/-- C7: a query target that was never ingested yields an empty
`get_top_co_purchase` result, `check_co_purchase_relation` yields `0` in
both argument positions for it, and `check_co_purchase_relation` yields
`0` whenever no relationship between its arguments is recorded (absent
first key included); in the embedding all operations are total, so no
error is possible. -/
theorem C7_unknown_item (ts : List (List String)) (target : String)
    (h : ∀ t ∈ ts, target ∉ t) :
    (∀ n, get_top_co_purchase (buildGraph ts) target n = []) ∧
    (∀ b, check_co_purchase_relation (buildGraph ts) target b = 0 ∧
      check_co_purchase_relation (buildGraph ts) b target = 0) ∧
    (∀ (g : Graph) (a b : String), lookup2 g.adjacency_list a b = none →
      check_co_purchase_relation g a b = 0) := by
  obtain ⟨h1, h2⟩ := buildGraph_not_ingested ts target h
  refine ⟨?_, ?_, fun g a b hn => check_of_lookup2_none g a b hn⟩
  · intro n
    simp [get_top_co_purchase, h1]
  · intro b
    constructor
    · apply check_of_lookup2_none
      unfold lookup2
      rw [h1]
    · exact check_of_lookup2_none _ _ _ (h2 b)

theorem C7_unknown_item_witness :
    (∀ n, get_top_co_purchase (buildGraph [["a", "b"]]) "c" n = []) ∧
    (∀ b, check_co_purchase_relation (buildGraph [["a", "b"]]) "c" b = 0 ∧
      check_co_purchase_relation (buildGraph [["a", "b"]]) b "c" = 0) ∧
    (∀ (g : Graph) (a b : String), lookup2 g.adjacency_list a b = none →
      check_co_purchase_relation g a b = 0) :=
  C7_unknown_item [["a", "b"]] "c" (by decide)

theorem strLtAux_irrefl (l : List Char) : strLtAux l l = false := by
  induction l with
  | nil => rfl
  | cons a as ih => simp [strLtAux, ih]

theorem strLtAux_asymm (l1 l2 : List Char) (h : strLtAux l1 l2 = true) :
    strLtAux l2 l1 = false := by
  induction l1 generalizing l2 with
  | nil =>
    cases l2 with
    | nil => simp [strLtAux] at h
    | cons b bs => rfl
  | cons a as ih =>
    cases l2 with
    | nil => simp [strLtAux] at h
    | cons b bs =>
      simp only [strLtAux] at h ⊢
      by_cases h1 : a.val.toNat < b.val.toNat
      · rw [if_neg (by omega : ¬b.val.toNat < a.val.toNat), if_pos h1]
      · by_cases h2 : b.val.toNat < a.val.toNat
        · rw [if_neg h1, if_pos h2] at h
          exact absurd h (by simp)
        · rw [if_neg h1, if_neg h2] at h
          rw [if_neg h2, if_neg h1]
          exact ih bs h

theorem strLt_irrefl (a : String) : strLt a a = false :=
  strLtAux_irrefl a.data

theorem strLt_asymm (a b : String) (h : strLt a b = true) : strLt b a = false :=
  strLtAux_asymm a.data b.data h

theorem canonPair_canonical (a b : String) :
    strLt (canonPair a b).2 (canonPair a b).1 = false := by
  unfold canonPair
  by_cases h : strLt b a = true
  · rw [if_pos h]
    exact strLt_asymm b a h
  · rw [if_neg h]
    simp only [Bool.not_eq_true] at h
    exact h

theorem pairStep_mono (item1 : String)
    (acc : List (String × String) × List ((String × String) × Nat))
    (nb : String × Nat) (q : String × String) (h : q ∈ acc.1) :
    q ∈ (pairStep item1 acc nb).1 := by
  unfold pairStep
  by_cases hc : canonPair item1 nb.1 ∈ acc.1
  · rw [if_pos hc]
    exact h
  · rw [if_neg hc]
    exact List.mem_append.mpr (Or.inl h)

theorem pairStep_hit (item1 : String)
    (acc : List (String × String) × List ((String × String) × Nat))
    (nb : String × Nat) :
    canonPair item1 nb.1 ∈ (pairStep item1 acc nb).1 := by
  unfold pairStep
  by_cases hc : canonPair item1 nb.1 ∈ acc.1
  · rw [if_pos hc]
    exact hc
  · rw [if_neg hc]
    exact List.mem_append.mpr (Or.inr (List.mem_singleton.mpr rfl))

theorem pairStep_inv (item1 : String)
    (acc : List (String × String) × List ((String × String) × Nat))
    (nb : String × Nat)
    (h1 : acc.1 = acc.2.map (fun q => q.1)) (h2 : acc.1.Nodup)
    (h3 : ∀ q ∈ acc.2, strLt q.1.2 q.1.1 = false) :
    (pairStep item1 acc nb).1 = (pairStep item1 acc nb).2.map (fun q => q.1) ∧
    (pairStep item1 acc nb).1.Nodup ∧
    ∀ q ∈ (pairStep item1 acc nb).2, strLt q.1.2 q.1.1 = false := by
  unfold pairStep
  by_cases hc : canonPair item1 nb.1 ∈ acc.1
  · rw [if_pos hc]
    exact ⟨h1, h2, h3⟩
  · rw [if_neg hc]
    dsimp only
    refine ⟨?_, ?_, ?_⟩
    · simp [h1]
    · rw [List.nodup_append]
      exact ⟨h2, List.nodup_singleton _, by
        intro q hq
        simp only [List.mem_singleton]
        intro he
        exact hc (he ▸ hq)⟩
    · intro q hq
      rcases List.mem_append.mp hq with hq | hq
      · exact h3 q hq
      · rw [List.mem_singleton.mp hq]
        exact canonPair_canonical item1 nb.1

theorem foldl_pairStep_mono (item1 : String) (nbs : List (String × Nat))
    (acc : List (String × String) × List ((String × String) × Nat))
    (q : String × String) (h : q ∈ acc.1) :
    q ∈ (nbs.foldl (pairStep item1) acc).1 := by
  induction nbs generalizing acc with
  | nil => exact h
  | cons nb rest ih =>
    rw [List.foldl_cons]
    exact ih (pairStep item1 acc nb) (pairStep_mono item1 acc nb q h)

theorem foldl_pairStep_inv (item1 : String) (nbs : List (String × Nat))
    (acc : List (String × String) × List ((String × String) × Nat))
    (h1 : acc.1 = acc.2.map (fun q => q.1)) (h2 : acc.1.Nodup)
    (h3 : ∀ q ∈ acc.2, strLt q.1.2 q.1.1 = false) :
    (nbs.foldl (pairStep item1) acc).1 =
      (nbs.foldl (pairStep item1) acc).2.map (fun q => q.1) ∧
    (nbs.foldl (pairStep item1) acc).1.Nodup ∧
    ∀ q ∈ (nbs.foldl (pairStep item1) acc).2, strLt q.1.2 q.1.1 = false := by
  induction nbs generalizing acc with
  | nil => exact ⟨h1, h2, h3⟩
  | cons nb rest ih =>
    rw [List.foldl_cons]
    obtain ⟨g1, g2, g3⟩ := pairStep_inv item1 acc nb h1 h2 h3
    exact ih (pairStep item1 acc nb) g1 g2 g3

theorem entry_hit (item1 : String) (nbs : List (String × Nat))
    (acc : List (String × String) × List ((String × String) × Nat))
    (b : String) (c : Nat) (hmem : (b, c) ∈ nbs) :
    canonPair item1 b ∈ (nbs.foldl (pairStep item1) acc).1 := by
  obtain ⟨s, t, rfl⟩ := List.append_of_mem hmem
  rw [List.foldl_append, List.foldl_cons]
  exact foldl_pairStep_mono item1 t _ _ (pairStep_hit item1 _ (b, c))

theorem foldl_entryStep_mono (entries : AdjList)
    (acc : List (String × String) × List ((String × String) × Nat))
    (q : String × String) (h : q ∈ acc.1) :
    q ∈ (entries.foldl entryStep acc).1 := by
  induction entries generalizing acc with
  | nil => exact h
  | cons e rest ih =>
    rw [List.foldl_cons]
    exact ih (entryStep acc e) (foldl_pairStep_mono e.1 e.2 acc q h)

theorem foldl_entryStep_inv (entries : AdjList)
    (acc : List (String × String) × List ((String × String) × Nat))
    (h1 : acc.1 = acc.2.map (fun q => q.1)) (h2 : acc.1.Nodup)
    (h3 : ∀ q ∈ acc.2, strLt q.1.2 q.1.1 = false) :
    (entries.foldl entryStep acc).1 =
      (entries.foldl entryStep acc).2.map (fun q => q.1) ∧
    (entries.foldl entryStep acc).1.Nodup ∧
    ∀ q ∈ (entries.foldl entryStep acc).2, strLt q.1.2 q.1.1 = false := by
  induction entries generalizing acc with
  | nil => exact ⟨h1, h2, h3⟩
  | cons e rest ih =>
    rw [List.foldl_cons]
    obtain ⟨g1, g2, g3⟩ := foldl_pairStep_inv e.1 e.2 acc h1 h2 h3
    exact ih (entryStep acc e) g1 g2 g3

theorem collectPairs_inv (adj : AdjList) :
    (adj.foldl entryStep ([], [])).1 = (collectPairs adj).map (fun q => q.1) ∧
    ((collectPairs adj).map (fun q => q.1)).Nodup ∧
    ∀ q ∈ collectPairs adj, strLt q.1.2 q.1.1 = false := by
  obtain ⟨g1, g2, g3⟩ := foldl_entryStep_inv adj ([], []) rfl List.nodup_nil
    (fun q hq => absurd hq (List.not_mem_nil q))
  exact ⟨g1, g1 ▸ g2, g3⟩

theorem collectPairs_complete (adj : AdjList) (a b : String) (c : Nat)
    (h : lookup2 adj a b = some c) :
    canonPair a b ∈ (collectPairs adj).map (fun q => q.1) := by
  have hsplit : ∃ m, lookup? adj a = some m ∧ lookup? m b = some c := by
    unfold lookup2 at h
    cases ha : lookup? adj a with
    | none => rw [ha] at h; exact absurd h (by simp)
    | some m => rw [ha] at h; exact ⟨m, rfl, h⟩
  obtain ⟨m, ha, hb⟩ := hsplit
  rw [← (collectPairs_inv adj).1]
  obtain ⟨s, t, rfl⟩ := List.append_of_mem (lookup?_mem adj a m ha)
  rw [List.foldl_append, List.foldl_cons]
  apply foldl_entryStep_mono
  exact entry_hit a m _ b c (lookup?_mem m b c hb)

/-- C2 (counterexample): on the graph built from transactions
`["a","z"]` then `["a","b"]`, the two neighbors of `"a"` are tied at
count 1 and `get_top_co_purchase` returns them in adjacency insertion
order `z, b`, not in the ascending lexicographic order `b, z` the claim
asserts. -/
theorem C2_counterexample :
    get_top_co_purchase (buildGraph [["a", "z"], ["a", "b"]]) "a" 5 =
      [("z", 1), ("b", 1)] ∧
    get_top_co_purchase_specOrder (buildGraph [["a", "z"], ["a", "b"]]) "a" 5 =
      [("b", 1), ("z", 1)] ∧
    get_top_co_purchase (buildGraph [["a", "z"], ["a", "b"]]) "a" 5 ≠
      get_top_co_purchase_specOrder (buildGraph [["a", "z"], ["a", "b"]]) "a" 5 := by
  refine ⟨by decide, by decide, by decide⟩

/-- C2 (amended): for every target with a recorded neighbor map `m`,
`get_top_co_purchase` returns the stable descending-by-count sort of `m`
truncated to the first `n` entries — a permutation of `m` when `n` is
large enough, sorted by descending count, with ties among equal counts
kept in the first-insertion order of the adjacency entry (the
filter-per-count clauses), not in lexicographic order. -/
theorem C2_top_co_purchase_amended (g : Graph) (target : String) (n : Nat)
    (m : NeighborMap) (hm : lookup? g.adjacency_list target = some m) :
    get_top_co_purchase g target n = (sortDescBy (fun x => x.2) m).take n ∧
    (sortDescBy (fun x => x.2) m).Perm m ∧
    (sortDescBy (fun x => x.2) m).Pairwise (fun x y => y.2 ≤ x.2) ∧
    (∀ c : Nat, (sortDescBy (fun x => x.2) m).filter (fun x => x.2 == c) =
      m.filter (fun x => x.2 == c)) ∧
    (m.length ≤ n → (get_top_co_purchase g target n).Perm m) := by
  have h0 : get_top_co_purchase g target n = (sortDescBy (fun x => x.2) m).take n := by
    simp [get_top_co_purchase, hm]
  refine ⟨h0, sortDescBy_perm _ m, sortDescBy_pairwise _ m,
    fun c => sortDescBy_filter _ m c, ?_⟩
  intro hlen
  rw [h0, List.take_of_length_le]
  · exact sortDescBy_perm _ m
  · rw [(sortDescBy_perm (fun x => x.2) m).length_eq]
    exact hlen

theorem C2_top_co_purchase_amended_witness :
    get_top_co_purchase (buildGraph [["a", "z"], ["a", "b"]]) "a" 5 =
      (sortDescBy (fun x => x.2) [("z", 1), ("b", 1)]).take 5 :=
  (C2_top_co_purchase_amended (buildGraph [["a", "z"], ["a", "b"]]) "a" 5
    [("z", 1), ("b", 1)] (by decide)).1

/-- C3 (counterexample): on the graph built from transactions
`["b","z"]` then `["a","c"]`, the two recorded pairs are tied at count 1
and `get_top3_product_pairs` returns them in first-enumeration order
`(b,z), (a,c)`, not in the ascending lexicographic order `(a,c), (b,z)`
the claim asserts (the operation also has no `k` parameter at all). -/
theorem C3_counterexample :
    get_top3_product_pairs (buildGraph [["b", "z"], ["a", "c"]]) =
      [(("b", "z"), 1), (("a", "c"), 1)] ∧
    topPairs_specOrder (buildGraph [["b", "z"], ["a", "c"]]) 3 =
      [(("a", "c"), 1), (("b", "z"), 1)] ∧
    get_top3_product_pairs (buildGraph [["b", "z"], ["a", "c"]]) ≠
      topPairs_specOrder (buildGraph [["b", "z"], ["a", "c"]]) 3 := by
  refine ⟨by decide, by decide, by decide⟩

/-- C3 (amended): `get_top3_product_pairs` enumerates each recorded
unordered pair exactly once (the key list is duplicate-free, every key is
canonically ordered, and every recorded directed entry is represented by
its canonicalized pair), sorts the pairs by descending count with ties in
first-enumeration order (stable sort, not lexicographic), and truncates
to the fixed bound 3 — there is no `k` parameter; when at most 3 pairs
exist, all of them are returned. -/
theorem C3_top_pairs_amended (g : Graph) :
    ((collectPairs g.adjacency_list).map (fun q => q.1)).Nodup ∧
    (∀ q ∈ collectPairs g.adjacency_list, strLt q.1.2 q.1.1 = false) ∧
    (∀ a b c, lookup2 g.adjacency_list a b = some c →
      canonPair a b ∈ (collectPairs g.adjacency_list).map (fun q => q.1)) ∧
    get_top3_product_pairs g =
      (sortDescBy (fun x => x.2) (collectPairs g.adjacency_list)).take 3 ∧
    (sortDescBy (fun x => x.2) (collectPairs g.adjacency_list)).Perm
      (collectPairs g.adjacency_list) ∧
    (sortDescBy (fun x => x.2) (collectPairs g.adjacency_list)).Pairwise
      (fun x y => y.2 ≤ x.2) ∧
    ((collectPairs g.adjacency_list).length ≤ 3 →
      (get_top3_product_pairs g).Perm (collectPairs g.adjacency_list)) := by
  obtain ⟨_, h2, h3⟩ := collectPairs_inv g.adjacency_list
  refine ⟨h2, h3, fun a b c h => collectPairs_complete _ a b c h, rfl,
    sortDescBy_perm _ _, sortDescBy_pairwise _ _, ?_⟩
  intro hlen
  unfold get_top3_product_pairs
  rw [List.take_of_length_le]
  · exact sortDescBy_perm _ _
  · rw [(sortDescBy_perm (fun x => x.2) (collectPairs g.adjacency_list)).length_eq]
    exact hlen

theorem C3_top_pairs_amended_witness :
    canonPair "b" "z" ∈
      (collectPairs (buildGraph [["b", "z"], ["a", "c"]]).adjacency_list).map
        (fun q => q.1) :=
  (C3_top_pairs_amended (buildGraph [["b", "z"], ["a", "c"]])).2.2.1 "b" "z" 1
    (by decide)

theorem counterAdd_keys (m : FreqMap) (k : String) (d : Nat) (e : String × Nat)
    (h : e ∈ counterAdd m k d) : e ∈ m ∨ e.1 = k := by
  unfold counterAdd at h
  cases hm : lookup? m k with
  | some c =>
    rw [hm] at h
    rcases mem_dictSet m k (c + d) e h with h1 | h1
    · exact Or.inl h1
    · right
      rw [h1]
  | none =>
    rw [hm] at h
    rcases List.mem_append.mp h with h1 | h1
    · exact Or.inl h1
    · right
      rw [List.mem_singleton.mp h1]

theorem recScore_excl (inputs : List String) (acc2 : FreqMap) (nb : String × Nat)
    (h : ∀ e ∈ acc2, e.1 ∉ inputs) :
    ∀ e ∈ recScore inputs acc2 nb, e.1 ∉ inputs := by
  unfold recScore
  by_cases hc : nb.1 ∈ inputs
  · rw [if_pos hc]
    exact h
  · rw [if_neg hc]
    intro e he
    rcases counterAdd_keys acc2 nb.1 nb.2 e he with h1 | h1
    · exact h e h1
    · rw [h1]
      exact hc

theorem foldl_recScore_excl (inputs : List String) (nbs : List (String × Nat))
    (acc2 : FreqMap) (h : ∀ e ∈ acc2, e.1 ∉ inputs) :
    ∀ e ∈ nbs.foldl (recScore inputs) acc2, e.1 ∉ inputs := by
  induction nbs generalizing acc2 with
  | nil => exact h
  | cons nb rest ih =>
    rw [List.foldl_cons]
    exact ih (recScore inputs acc2 nb) (recScore_excl inputs acc2 nb h)

theorem recStep_excl (adj : AdjList) (inputs : List String) (acc : FreqMap)
    (p : String) (h : ∀ e ∈ acc, e.1 ∉ inputs) :
    ∀ e ∈ recStep adj inputs acc p, e.1 ∉ inputs := by
  unfold recStep
  cases hm : lookup? adj p with
  | none => exact h
  | some m => exact foldl_recScore_excl inputs m acc h

theorem foldl_recStep_excl (adj : AdjList) (inputs : List String)
    (l : List String) (acc : FreqMap) (h : ∀ e ∈ acc, e.1 ∉ inputs) :
    ∀ e ∈ l.foldl (recStep adj inputs) acc, e.1 ∉ inputs := by
  induction l generalizing acc with
  | nil => exact h
  | cons p rest ih =>
    rw [List.foldl_cons]
    exact ih (recStep adj inputs acc p) (recStep_excl adj inputs acc p h)

/-- C5: no element of `get_recommendation g inputs n` is itself a member
of `inputs` (self-recommendation is never produced, even for an item that
co-occurs with another input item), and empty `inputs` always yields the
empty result. -/
theorem C5_recommend_exclusion :
    (∀ (g : Graph) (inputs : List String) (n : Nat) (p : String × Nat),
      p ∈ get_recommendation g inputs n → p.1 ∉ inputs) ∧
    (∀ (g : Graph) (n : Nat), get_recommendation g [] n = []) := by
  constructor
  · intro g inputs n p hp
    unfold get_recommendation at hp
    have h1 : p ∈ sortDescBy (fun x => x.2)
        (inputs.foldl (recStep g.adjacency_list inputs) []) :=
      List.mem_of_mem_take hp
    have h2 : p ∈ inputs.foldl (recStep g.adjacency_list inputs) [] :=
      (sortDescBy_perm _ _).mem_iff.mp h1
    exact foldl_recStep_excl g.adjacency_list inputs inputs [] (by simp) p h2
  · intro g n
    simp [get_recommendation, sortDescBy]

theorem C5_recommend_exclusion_witness :
    (("b" : String) ∉ (["a"] : List String)) ∧
    get_recommendation (buildGraph [["a", "b"]]) [] 5 = [] :=
  ⟨C5_recommend_exclusion.1 (buildGraph [["a", "b"]]) ["a"] 5 ("b", 1) (by decide),
    C5_recommend_exclusion.2 (buildGraph [["a", "b"]]) 5⟩

theorem product_categories_keys_nodup :
    (product_categories.map Prod.fst).Nodup := by decide

theorem mem_categoryProducts (p c : String) (h : p ∈ categoryProducts c) :
    lookup? product_categories p = some c := by
  unfold categoryProducts at h
  rcases List.mem_map.mp h with ⟨pr, hpr, rfl⟩
  rcases List.mem_filter.mp hpr with ⟨hmem, hdec⟩
  have hc : pr.2 = c := of_decide_eq_true hdec
  rw [← hc]
  exact nodupKeys_lookup? product_categories pr.1 pr.2 product_categories_keys_nodup
    (by rwa [Prod.mk.eta])

theorem foldl_filterStep_prop (adj : AdjList) (cps : List String) (l : List String)
    (acc : AdjList) (hsub : ∀ p ∈ l, p ∈ cps)
    (hacc : ∀ e ∈ acc, e.1 ∈ cps ∧ e.2 ≠ [] ∧
      ∃ m, lookup? adj e.1 = some m ∧
        e.2 = m.filter (fun nb => decide (nb.1 ∈ cps))) :
    ∀ e ∈ l.foldl (filterStep adj cps) acc, e.1 ∈ cps ∧ e.2 ≠ [] ∧
      ∃ m, lookup? adj e.1 = some m ∧
        e.2 = m.filter (fun nb => decide (nb.1 ∈ cps)) := by
  induction l generalizing acc with
  | nil => exact hacc
  | cons p rest ih =>
    rw [List.foldl_cons]
    apply ih
    · intro q hq
      exact hsub q (List.mem_cons_of_mem _ hq)
    · intro e he
      simp only [filterStep] at he
      cases hm : lookup? adj p with
      | none =>
        simp only [hm] at he
        exact hacc e he
      | some m =>
        simp only [hm] at he
        by_cases hfn : m.filter (fun nb => decide (nb.1 ∈ cps)) = []
        · rw [if_pos hfn] at he
          exact hacc e he
        · rw [if_neg hfn] at he
          rcases List.mem_append.mp he with h1 | h1
          · exact hacc e h1
          · rw [List.mem_singleton.mp h1]
            exact ⟨hsub p (List.mem_cons_self _ _), hfn, m, hm, rfl⟩

/-- C6: every item key of `filter_by_category g c` and every neighbor in
its nested mapping has category-table entry `c`; an item appears as a key
only with a nonempty neighbor map, which is exactly its adjacency entry
restricted to same-category neighbors; and a category with no items in
the table (unknown or empty name) yields the empty mapping. -/
theorem C6_category_filter (g : Graph) (c : String) :
    (categoryProducts c = [] → filter_by_category g c = []) ∧
    ∀ e ∈ filter_by_category g c,
      lookup? product_categories e.1 = some c ∧
      e.2 ≠ [] ∧
      (∀ nb ∈ e.2, lookup? product_categories nb.1 = some c) ∧
      ∃ m, lookup? g.adjacency_list e.1 = some m ∧
        e.2 = m.filter (fun nb => decide (nb.1 ∈ categoryProducts c)) := by
  constructor
  · intro hc
    simp [filter_by_category, hc]
  · intro e he
    by_cases hc : categoryProducts c = []
    · exfalso
      revert he
      simp [filter_by_category, hc]
    · have he2 : e ∈ (categoryProducts c).foldl
          (filterStep g.adjacency_list (categoryProducts c)) [] := by
        simpa [filter_by_category, hc] using he
      obtain ⟨h1, h2, m, hm, hfil⟩ := foldl_filterStep_prop g.adjacency_list
        (categoryProducts c) (categoryProducts c) [] (fun p hp => hp)
        (by simp) e he2
      refine ⟨mem_categoryProducts e.1 c h1, h2, ?_, m, hm, hfil⟩
      intro nb hnb
      rw [hfil] at hnb
      rcases List.mem_filter.mp hnb with ⟨_, hdec⟩
      exact mem_categoryProducts nb.1 c (of_decide_eq_true hdec)

theorem C6_category_filter_witness :
    lookup? product_categories "whole milk" = some "dairy" ∧
    filter_by_category (buildGraph [["whole milk", "yogurt"]]) "nosuchcategory" = [] :=
  ⟨((C6_category_filter (buildGraph [["whole milk", "yogurt"]]) "dairy").2
      ("whole milk", [("yogurt", 1)]) (by decide)).1,
    (C6_category_filter (buildGraph [["whole milk", "yogurt"]]) "nosuchcategory").1
      (by decide)⟩

theorem filterStepS_eq (cps : List String) (adj : AdjList) (accP : AdjList)
    (p : String) :
    filterStepS cps (accP, adj) p = (filterStep adj cps accP p, adj) := by
  simp only [filterStepS, filterStep]
  cases hm : lookup? adj p with
  | none => simp [hm]
  | some m =>
    simp only [hm, ddIndex]
    by_cases hfn : m.filter (fun nb => decide (nb.1 ∈ cps)) = []
    · simp [hfn]
    · simp [hfn]

theorem foldl_filterStepS_eq (cps : List String) (adj : AdjList) (l : List String)
    (accP : AdjList) :
    l.foldl (filterStepS cps) (accP, adj) =
      (l.foldl (filterStep adj cps) accP, adj) := by
  induction l generalizing accP with
  | nil => rfl
  | cons p rest ih =>
    rw [List.foldl_cons, List.foldl_cons, filterStepS_eq cps adj accP p, ih]

theorem recStepS_eq (inputs : List String) (adj : AdjList) (accP : FreqMap)
    (p : String) :
    recStepS inputs (accP, adj) p = (recStep adj inputs accP p, adj) := by
  simp only [recStepS, recStep]
  cases hm : lookup? adj p with
  | none => simp [hm]
  | some m => simp [hm, ddIndex]

theorem foldl_recStepS_eq (inputs : List String) (adj : AdjList) (l : List String)
    (accP : FreqMap) :
    l.foldl (recStepS inputs) (accP, adj) =
      (l.foldl (recStep adj inputs) accP, adj) := by
  induction l generalizing accP with
  | nil => rfl
  | cons p rest ih =>
    rw [List.foldl_cons, List.foldl_cons, recStepS_eq inputs adj accP p, ih]

/-- C9: each of the five query operations, with every dict subscription
modelled through the `defaultdict` semantics (`ddIndex`), leaves the
graph state exactly unchanged and computes the same result as its pure
counterpart — in particular querying an unknown item creates no empty
adjacency entry, because every subscript in the query paths is guarded by
a membership test. -/
theorem C9_queries_read_only (g : Graph) (t a b c : String) (n k : Nat)
    (ins : List String) :
    (get_top_co_purchaseS g t n).2 = g ∧
    (get_top_co_purchaseS g t n).1 = get_top_co_purchase g t n ∧
    (get_top3_product_pairsS g).2 = g ∧
    (get_top3_product_pairsS g).1 = get_top3_product_pairs g ∧
    (check_co_purchase_relationS g a b).2 = g ∧
    (check_co_purchase_relationS g a b).1 = check_co_purchase_relation g a b ∧
    (filter_by_categoryS g c).2 = g ∧
    (filter_by_categoryS g c).1 = filter_by_category g c ∧
    (get_recommendationS g ins k).2 = g ∧
    (get_recommendationS g ins k).1 = get_recommendation g ins k := by
  refine ⟨?_, ?_, rfl, rfl, ?_, ?_, ?_, ?_, ?_, ?_⟩
  · cases h : lookup? g.adjacency_list t with
    | none => simp [get_top_co_purchaseS, h]
    | some m => simp [get_top_co_purchaseS, h, ddIndex]
  · cases h : lookup? g.adjacency_list t with
    | none => simp [get_top_co_purchaseS, get_top_co_purchase, h]
    | some m => simp [get_top_co_purchaseS, get_top_co_purchase, h, ddIndex]
  · cases h1 : lookup? g.adjacency_list a with
    | none => simp [check_co_purchase_relationS, h1]
    | some m =>
      cases h2 : lookup? m b with
      | none => simp [check_co_purchase_relationS, h1, h2, ddIndex]
      | some v => simp [check_co_purchase_relationS, h1, h2, ddIndex]
  · cases h1 : lookup? g.adjacency_list a with
    | none => simp [check_co_purchase_relationS, check_co_purchase_relation, h1]
    | some m =>
      cases h2 : lookup? m b with
      | none =>
        simp [check_co_purchase_relationS, check_co_purchase_relation, h1, h2, ddIndex]
      | some v =>
        simp [check_co_purchase_relationS, check_co_purchase_relation, h1, h2, ddIndex]
  · by_cases hc : categoryProducts c = []
    · simp [filter_by_categoryS, hc]
    · simp only [filter_by_categoryS, if_neg hc]
      rw [foldl_filterStepS_eq]
  · by_cases hc : categoryProducts c = []
    · simp [filter_by_categoryS, filter_by_category, hc]
    · simp only [filter_by_categoryS, filter_by_category, if_neg hc]
      rw [foldl_filterStepS_eq]
  · simp only [get_recommendationS]
    rw [foldl_recStepS_eq]
  · simp only [get_recommendationS, get_recommendation]
    rw [foldl_recStepS_eq]

/-- C10: every query result is a function of the stored adjacency list and
frequency counter alone (two graphs with equal state give identical
results for identical arguments — the embedded operations are
deterministic); ties among equal counts are resolved by the stable sort,
which preserves the first-insertion order of the underlying container
(the filter-per-count clauses), and on a concrete tie this order is the
insertion order `z` before `b`, not the lexicographic one. -/
theorem C10_determinism (g1 g2 : Graph)
    (hadj : g1.adjacency_list = g2.adjacency_list)
    (hfreq : g1.product_frequency = g2.product_frequency) :
    (∀ t n, get_top_co_purchase g1 t n = get_top_co_purchase g2 t n) ∧
    get_top3_product_pairs g1 = get_top3_product_pairs g2 ∧
    (∀ a b, check_co_purchase_relation g1 a b = check_co_purchase_relation g2 a b) ∧
    (∀ c, filter_by_category g1 c = filter_by_category g2 c) ∧
    (∀ ins n, get_recommendation g1 ins n = get_recommendation g2 ins n) ∧
    (∀ (l : List (String × Nat)) (c : Nat),
      (sortDescBy (fun x => x.2) l).filter (fun x => x.2 == c) =
        l.filter (fun x => x.2 == c)) ∧
    (∀ (l : List ((String × String) × Nat)) (c : Nat),
      (sortDescBy (fun x => x.2) l).filter (fun x => x.2 == c) =
        l.filter (fun x => x.2 == c)) ∧
    get_top_co_purchase (buildGraph [["a", "z"], ["a", "b"]]) "a" 5 =
      [("z", 1), ("b", 1)] := by
  have hg : g1 = g2 := by
    cases g1
    cases g2
    simp only at hadj hfreq
    rw [hadj, hfreq]
  subst hg
  refine ⟨fun _ _ => rfl, rfl, fun _ _ => rfl, fun _ => rfl, fun _ _ => rfl,
    fun l c => sortDescBy_filter _ l c, fun l c => sortDescBy_filter _ l c, by decide⟩

theorem C10_determinism_witness :
    get_top_co_purchase (buildGraph [["x", "y"]]) "x" 1 =
      get_top_co_purchase (buildGraph [["x", "y"]]) "x" 1 :=
  (C10_determinism (buildGraph [["x", "y"]]) (buildGraph [["x", "y"]]) rfl rfl).1 "x" 1
